import Mathlib

/-!
Verification development for the daemon console library.

The file shallowly embeds the two source modules that carry the design:

* `src/tab.rs` — the completion engine (context tree, longest-trigger
  dispatch, filtering strategies, one-entry query cache);
* `src/lib.rs` — the editor/history state machine, the event dispatcher
  `process_event`, and the render reconciler.

Rust strings are modelled as lists of characters (`Str`), matching the
`chars()`-based operations the source uses everywhere.  Terminal output is
modelled explicitly: the lines written with `writeln!` become an `out`
trace on the application state, and the low-level draw commands become a
`TermCmd` trace for the error-handling claims.  Wall-clock instants are
modelled as natural-number second counts passed in as a `now` parameter.
-/

namespace DCL

/-- Rust strings, modelled as lists of Unicode scalar values: every string
operation the source performs (`chars()`, `strip_prefix`, `trim`, ...) is
a per-character operation. -/
abbrev Str := List Char

/-- Rust `str::trim_start`: leading whitespace removed. -/
def trimStart (s : Str) : Str := s.dropWhile Char.isWhitespace

/-- Rust `str::trim_end`: trailing whitespace removed. -/
def trimEnd (s : Str) : Str := (s.reverse.dropWhile Char.isWhitespace).reverse

/-- Rust `str::trim`: whitespace removed from both ends. -/
def trim (s : Str) : Str := trimEnd (trimStart s)

/-- Rust `input.strip_prefix(p).unwrap_or("")` as used in tab.rs lines
293-296: the remainder after `p` when `p` is a literal prefix of `s`,
otherwise the empty string. -/
def stripPrefixOr (p s : Str) : Str := if p <+: s then s.drop p.length else []

/-- Helper for `splitWs`: accumulates the current word (reversed) while
scanning, emitting a word at every whitespace boundary. -/
def splitWsAux : Str → Str → List Str
  | [], acc => if acc = [] then [] else [acc.reverse]
  | c :: rest, acc =>
    if c.isWhitespace then
      (if acc = [] then [] else [acc.reverse]) ++ splitWsAux rest []
    else
      splitWsAux rest (c :: acc)

/-- Rust `str::split_whitespace` collected to a list: maximal runs of
non-whitespace characters, in order, with no empty pieces. -/
def splitWs (s : Str) : List Str := splitWsAux s []

/-! ## tab.rs — the completion engine -/

/-- tab.rs `MatchStrategy` (the default is the second constructor,
see `Inhabited` below). -/
inductive MatchStrategy where
  | All : MatchStrategy
  | Prefix : MatchStrategy
  | Contains : MatchStrategy
deriving DecidableEq

/-- tab.rs marks the second strategy `#[default]`. -/
instance : Inhabited MatchStrategy := ⟨MatchStrategy.Prefix⟩

/-- tab.rs `CompletionItem`.  `priority` is a `u32` used only through
comparisons, so it is modelled as a natural number. -/
structure CompletionItem where
  text : Str
  description : Option Str
  priority : Nat
deriving DecidableEq

/-- tab.rs `CompletionItem::new`. -/
def CompletionItem.new (text : Str) : CompletionItem :=
  { text := text, description := none, priority := 0 }

/-- tab.rs `CompletionItem::with_description`. -/
def CompletionItem.with_description (item : CompletionItem) (desc : Str) : CompletionItem :=
  { item with description := some desc }

/-- tab.rs `CompletionItem::with_priority`. -/
def CompletionItem.with_priority (item : CompletionItem) (priority : Nat) : CompletionItem :=
  { item with priority := priority }

/-- tab.rs `TabNode`: a node of the completion tree.  Lean structures
cannot be recursive, so the node is a single-constructor inductive with
projection functions named after the Rust fields. -/
inductive TabNode where
  | mk : Option Str → List CompletionItem → List TabNode → MatchStrategy → TabNode

/-- Field `trigger` of tab.rs `TabNode`. -/
def TabNode.trigger : TabNode → Option Str
  | .mk t _ _ _ => t

/-- Field `completions` of tab.rs `TabNode`. -/
def TabNode.completions : TabNode → List CompletionItem
  | .mk _ c _ _ => c

/-- Field `children` of tab.rs `TabNode`. -/
def TabNode.children : TabNode → List TabNode
  | .mk _ _ ch _ => ch

/-- Field `match_strategy` of tab.rs `TabNode`. -/
def TabNode.match_strategy : TabNode → MatchStrategy
  | .mk _ _ _ s => s

/-- tab.rs `TabNode::new`. -/
def TabNode.new (trigger : Option Str) : TabNode :=
  .mk trigger [] [] default

/-- tab.rs `TabNode::root`. -/
def TabNode.rootNode : TabNode := TabNode.new none

/-- tab.rs `CompletionCandidate`. -/
structure CompletionCandidate where
  full_text : Str
  completion : Str
  description : Option Str
deriving DecidableEq

/-- tab.rs `TabTree`: the root node plus the one-entry query cache. -/
structure TabTree where
  root : TabNode
  current_candidates : List CompletionCandidate
  last_input : Str

/-- tab.rs `TabTree::new`. -/
def TabTree.new : TabTree :=
  { root := TabNode.rootNode, current_candidates := [], last_input := [] }

mutual

/-- tab.rs `find_node_exists` (the nested function inside
`find_or_create_node`): whether any node of the tree carries exactly this
trigger string. -/
def find_node_exists (node : TabNode) (trigger : Str) : Bool :=
  match node with
  | .mk t _ children _ =>
    if t = some trigger then true else find_node_exists_list children trigger

/-- List part of `find_node_exists`, visiting children in order. -/
def find_node_exists_list (ns : List TabNode) (trigger : Str) : Bool :=
  match ns with
  | [] => false
  | c :: rest =>
    if find_node_exists c trigger then true else find_node_exists_list rest trigger

end

mutual

/-- tab.rs `find_node_mut` fused with the mutation its caller performs:
the tree with `f` applied to the first node in depth-first order (a node
before its children) whose trigger equals `some trigger`, together with
whether such a node was found. -/
def update_node (node : TabNode) (trigger : Str) (f : TabNode → TabNode) : TabNode × Bool :=
  match node with
  | .mk t comps children strat =>
    if t = some trigger then (f (.mk t comps children strat), true)
    else
      let r := update_node_list children trigger f
      (.mk t comps r.1 strat, r.2)

/-- List part of `update_node`, visiting children in order. -/
def update_node_list (ns : List TabNode) (trigger : Str) (f : TabNode → TabNode) :
    List TabNode × Bool :=
  match ns with
  | [] => ([], false)
  | c :: rest =>
    let rc := update_node c trigger f
    if rc.2 then (rc.1 :: rest, true)
    else
      let rr := update_node_list rest trigger f
      (c :: rr.1, rr.2)

end

/-- tab.rs `register_completions_advanced`: a `context` of the empty
string means the root; otherwise the node is looked up by trigger
anywhere in the tree and created as a new child of the root when absent
(`find_or_create_node`).  The found node's completion list is extended
with `items` and its strategy overwritten. -/
def TabTree.register_completions_advanced (tr : TabTree) (context : Str)
    (items : List CompletionItem) (strategy : MatchStrategy) : TabTree :=
  let touch : TabNode → TabNode := fun n =>
    match n with
    | .mk t comps children _ => .mk t (comps ++ items) children strategy
  if context = [] then { tr with root := touch tr.root }
  else
    let root1 :=
      if find_node_exists tr.root context then tr.root
      else
        match tr.root with
        | .mk t comps children strat =>
          .mk t comps (children ++ [TabNode.new (some context)]) strat
    { tr with root := (update_node root1 context touch).1 }

/-- tab.rs `register_completions`: plain texts with default strategy. -/
def TabTree.register_completions (tr : TabTree) (context : Str) (texts : List Str) : TabTree :=
  tr.register_completions_advanced context (texts.map CompletionItem.new) default

/-- tab.rs `register_completions_with_desc`. -/
def TabTree.register_completions_with_desc (tr : TabTree) (context : Str)
    (items : List (Str × Str)) : TabTree :=
  tr.register_completions_advanced context
    (items.map (fun p => (CompletionItem.new p.1).with_description p.2)) default

/-- tab.rs `add_completion`: pushes one item onto an existing (or newly
created) context node, leaving its strategy unchanged. -/
def TabTree.add_completion (tr : TabTree) (context : Str) (text : Str)
    (description : Option Str) : TabTree :=
  let item :=
    match description with
    | some desc => (CompletionItem.new text).with_description desc
    | none => CompletionItem.new text
  let touch : TabNode → TabNode := fun n =>
    match n with
    | .mk t comps children strat => .mk t (comps ++ [item]) children strat
  if context = [] then { tr with root := touch tr.root }
  else
    let root1 :=
      if find_node_exists tr.root context then tr.root
      else
        match tr.root with
        | .mk t comps children strat =>
          .mk t comps (children ++ [TabNode.new (some context)]) strat
    { tr with root := (update_node root1 context touch).1 }

mutual

/-- tab.rs nested function `search` inside `find_deepest_match`: updates
the accumulated best (node, trigger length) with this node when its
trigger is a literal prefix of the input and strictly longer than the
best so far, then visits the children in order. -/
def searchNode (input : Str) (n : TabNode) (best : TabNode × Nat) : TabNode × Nat :=
  match n with
  | .mk trig _ children _ =>
    let best1 :=
      match trig with
      | some t => if t <+: input ∧ best.2 < t.length then (n, t.length) else best
      | none => best
    searchList input children best1

/-- List part of `search`, visiting children left to right. -/
def searchList (input : Str) (ns : List TabNode) (best : TabNode × Nat) : TabNode × Nat :=
  match ns with
  | [] => best
  | c :: rest => searchList input rest (searchNode input c best)

end

/-- tab.rs `find_deepest_match`: the best match starts as the root with
length 0 and the whole tree is searched. -/
def find_deepest_match (root : TabNode) (input : Str) : TabNode :=
  (searchNode input root (root, 0)).1

/-- Rust `candidates.sort_by(|a, b| b.priority.cmp(&a.priority))` in
tab.rs line 315.  Rust's `sort_by` is a stable sort, and the output of a
stable sort is uniquely determined by the comparator and the input, so it
is modelled by Mathlib's stable insertion sort with the same descending
comparator. -/
def sortByPriority (l : List CompletionItem) : List CompletionItem :=
  l.insertionSort (fun a b => b.priority ≤ a.priority)

/-- The suffix the Prefix strategy filters by (tab.rs lines 292-300):
the input minus the matched trigger, then minus leading whitespace, for
a node with a trigger; the unmodified input for the root. -/
def prefixRemainder (node : TabNode) (input : Str) : Str :=
  match node.trigger with
  | some trigger => trimStart (stripPrefixOr trigger input)
  | none => input

/-- The body of tab.rs `get_candidates` (lines 280-337) after the cache
check: find the deepest matching node, filter its items by the node's
strategy, sort by priority descending, and build the candidates. -/
def compute_candidates (root : TabNode) (input : Str) : List CompletionCandidate :=
  let node := find_deepest_match root input
  let candidates := node.completions
  let filtered :=
    match node.match_strategy with
    | .All => candidates
    | .Prefix =>
      let suffix := prefixRemainder node input
      if suffix ≠ [] then candidates.filter (fun item => decide (suffix <+: item.text))
      else candidates
    | .Contains =>
      let search := ((splitWs input).getLast?).getD []
      if search ≠ [] then candidates.filter (fun item => decide (search <:+: item.text))
      else candidates
  let sorted := sortByPriority filtered
  let triggerStr := node.trigger.getD []
  sorted.map (fun item =>
    { full_text := if triggerStr = [] then item.text else triggerStr ++ [' '] ++ item.text
      completion := item.text
      description := item.description })

/-- tab.rs `get_candidates`: the cached result is returned unchanged when
the input equals the last query; otherwise the uncached algorithm runs
and its result is cached. -/
def TabTree.get_candidates (tr : TabTree) (input : Str) :
    List CompletionCandidate × TabTree :=
  if input = tr.last_input then (tr.current_candidates, tr)
  else
    let result := compute_candidates tr.root input
    (result, { tr with last_input := input, current_candidates := result })

/-- tab.rs `get_best_match`: first candidate's full text; the underlying
query updates the cache even when no candidate exists. -/
def TabTree.get_best_match (tr : TabTree) (input : Str) : Option Str × TabTree :=
  let r := tr.get_candidates input
  (r.1.head?.map (fun c => c.full_text), r.2)

/-- tab.rs `clear_cache`. -/
def TabTree.clear_cache (tr : TabTree) : TabTree :=
  { tr with last_input := [], current_candidates := [] }

mutual

/-- All nodes of a completion tree, listed in the order tab.rs `search`
visits them (each node before its children, depth first). -/
def nodesOf (n : TabNode) : List TabNode :=
  match n with
  | .mk t comps children strat => .mk t comps children strat :: nodesOfList children

/-- List part of `nodesOf`. -/
def nodesOfList (ns : List TabNode) : List TabNode :=
  match ns with
  | [] => []
  | c :: rest => nodesOf c ++ nodesOfList rest

end

/-- The length of a node's trigger, 0 for the root's absent trigger —
the quantity tab.rs `find_deepest_match` maximises. -/
def triggerLen (n : TabNode) : Nat :=
  match n.trigger with
  | some t => t.length
  | none => 0

/-! ## The logger interface

lib.rs declares `pub mod logger` and calls the macros `get_info!`,
`get_warn!`, ..., but src/logger.rs is not among the sources, so the
formatter is modelled from the spec. -/

/-- Modelled from the spec: the five severities of the logger module
(src/logger.rs is missing from the sources; §6 lists
Info/Debug/Warn/Error/Critical). -/
inductive LogLevel where
  | Info : LogLevel
  | Debug : LogLevel
  | Warn : LogLevel
  | Error : LogLevel
  | Critical : LogLevel
deriving DecidableEq

/-- Modelled from the spec: the formatter's inputs, kept structured so
the severity of a produced line stays observable (§6: the formatter maps
a severity level, a message string and a module name to one display
line). -/
structure LogMsg where
  level : LogLevel
  text : Str
  module : Str
deriving DecidableEq

/-- Modelled from the spec: the lib.rs macro `get_info!(message, module)`
of the missing logger module — an info-severity display line. -/
def get_info (text module : Str) : LogMsg :=
  { level := .Info, text := text, module := module }

/-- Modelled from the spec: the lib.rs macro `get_warn!(message, module)`
of the missing logger module — a warn-severity display line. -/
def get_warn (text module : Str) : LogMsg :=
  { level := .Warn, text := text, module := module }

/-- Modelled from the spec: a tag for each severity, standing in for the
external formatter's level markup. -/
def levelTag : LogLevel → Str
  | .Info => "[INFO] ".toList
  | .Debug => "[DEBUG] ".toList
  | .Warn => "[WARN] ".toList
  | .Error => "[ERROR] ".toList
  | .Critical => "[CRITICAL] ".toList

/-- Modelled from the spec: the one display line the logger formatter
returns (§6); timestamps and colors are external, so the line is the
level tag, the module and the text. -/
def formatLog (m : LogMsg) : Str :=
  levelTag m.level ++ m.module ++ ": ".toList ++ m.text

/-! ## lib.rs — key events -/

/-- The crossterm key modifier set as used by lib.rs: only exact
comparisons with `KeyModifiers::CONTROL` and `KeyModifiers::ALT` occur,
so the three relevant flag bits are modelled. -/
structure KeyModifiers where
  control : Bool
  alt : Bool
  shift : Bool
deriving DecidableEq

/-- crossterm `KeyModifiers::CONTROL`. -/
def ctrlMod : KeyModifiers := { control := true, alt := false, shift := false }

/-- crossterm `KeyModifiers::ALT`. -/
def altMod : KeyModifiers := { control := false, alt := true, shift := false }

/-- crossterm `KeyModifiers::NONE`. -/
def noMod : KeyModifiers := { control := false, alt := false, shift := false }

/-- The crossterm key codes lib.rs matches on; every other code falls
into the wildcard arm, modelled by `OtherKey`. -/
inductive KeyCode where
  | Char : Char → KeyCode
  | Up : KeyCode
  | Down : KeyCode
  | Left : KeyCode
  | Right : KeyCode
  | Tab : KeyCode
  | Enter : KeyCode
  | Backspace : KeyCode
  | OtherKey : KeyCode
deriving DecidableEq

/-- crossterm `KeyEventKind`. -/
inductive KeyEventKind where
  | Press : KeyEventKind
  | Repeat : KeyEventKind
  | Release : KeyEventKind
deriving DecidableEq

/-- The three crossterm `KeyEvent` fields lib.rs reads (code, modifiers,
kind). -/
structure KeyEvent where
  code : KeyCode
  modifiers : KeyModifiers
  kind : KeyEventKind
deriving DecidableEq

/-- crossterm `Event`: key events, and every other event kind (mouse,
resize, ...) which lib.rs ignores. -/
inductive Event where
  | Key : KeyEvent → Event
  | OtherEvent : Event

/-! ## lib.rs — the application state -/

/-- lib.rs `TerminalApp` without the `Stdout` handle.  The extra field
`out` records the lines written with `writeln!` (the startup banner,
echoed submissions and log lines), making the observable output stream
explicit; the draw-command side of rendering is modelled separately by
`TermStream` below. -/
structure TerminalApp where
  command_history : List Str
  current_input : Str
  history_index : Option Nat
  last_ctrl_c : Option Nat
  cursor_position : Nat
  should_exit : Bool
  last_key_event : Option KeyEvent
  tab_tree : Option TabTree
  current_completions : List CompletionCandidate
  hints_rendered : Bool
  selected_completion_index : Nat
  out : List Str

/-- lib.rs `TerminalApp::new`. -/
def TerminalApp.new : TerminalApp :=
  { command_history := []
    current_input := []
    history_index := none
    last_ctrl_c := none
    cursor_position := 0
    should_exit := false
    last_key_event := none
    tab_tree := none
    current_completions := []
    hints_rendered := false
    selected_completion_index := 0
    out := [] }

/-- lib.rs `enable_tab_completion`. -/
def TerminalApp.enable_tab_completion (a : TerminalApp) : TerminalApp :=
  { a with tab_tree := some TabTree.new }

/-- lib.rs `register_tab_completions`: delegates to the tree when tab
completion is enabled, otherwise does nothing. -/
def TerminalApp.register_tab_completions (a : TerminalApp) (context : Str)
    (texts : List Str) : TerminalApp :=
  match a.tab_tree with
  | some tree => { a with tab_tree := some (tree.register_completions context texts) }
  | none => a

/-- lib.rs `register_tab_completions_with_desc`. -/
def TerminalApp.register_tab_completions_with_desc (a : TerminalApp) (context : Str)
    (items : List (Str × Str)) : TerminalApp :=
  match a.tab_tree with
  | some tree => { a with tab_tree := some (tree.register_completions_with_desc context items) }
  | none => a

/-- lib.rs `add_tab_completion`. -/
def TerminalApp.add_tab_completion (a : TerminalApp) (context : Str) (text : Str)
    (description : Option Str) : TerminalApp :=
  match a.tab_tree with
  | some tree => { a with tab_tree := some (tree.add_completion context text description) }
  | none => a

/-- lib.rs `remove_char_at`: removes the character at `index` when in
bounds (the source collects `chars()`, removes, and rebuilds). -/
def TerminalApp.remove_char_at (a : TerminalApp) (index : Nat) : TerminalApp :=
  if index < a.current_input.length then
    { a with current_input := a.current_input.eraseIdx index }
  else a

/-- The net effect of a full redraw on the application state: lib.rs
`render_input_line` first clears (resetting `hints_rendered`), then
`render_input_content` renders the hint line — setting `hints_rendered`
— exactly when the candidate list is non-empty.  The draw commands
themselves are modelled separately for the error-handling claim. -/
def renderStateEffect (a : TerminalApp) : TerminalApp :=
  { a with hints_rendered := decide (a.current_completions ≠ []) }

/-- lib.rs `print_log_entry`: clear the input line, write the log line
(ignoring failures), and re-render the input line below it. -/
def TerminalApp.print_log_entry (a : TerminalApp) (log_line : Str) : TerminalApp :=
  renderStateEffect { a with hints_rendered := false, out := a.out ++ [log_line] }

/-- lib.rs `update_completions`: queries the tree (whose cache mutates)
and resets the selected index to 0; a no-op when tab completion is
disabled. -/
def TerminalApp.update_completions (a : TerminalApp) : TerminalApp :=
  match a.tab_tree with
  | some tree =>
    let r := tree.get_candidates a.current_input
    { a with tab_tree := some r.2, current_completions := r.1,
             selected_completion_index := 0 }
  | none => a

/-- lib.rs `handle_char_input`: clamp the cursor to the character count
(defensive), insert at the cursor, advance by one. -/
def TerminalApp.handle_char_input (a : TerminalApp) (c : Char) : TerminalApp :=
  let char_count := a.current_input.length
  let cp := if char_count < a.cursor_position then char_count else a.cursor_position
  { a with current_input := a.current_input.insertIdx cp c, cursor_position := cp + 1 }

/-- lib.rs `handle_up_key`.  History indexing (`command_history[i]`) is
total here via `getD`; every use below is in bounds in reachable states
(see the invariant theorems). -/
def TerminalApp.handle_up_key (a : TerminalApp) : TerminalApp :=
  if a.command_history = [] then a
  else
    match a.history_index with
    | some idx =>
      if 0 < idx then
        let entry := a.command_history.getD (idx - 1) []
        TerminalApp.update_completions
          { a with history_index := some (idx - 1), current_input := entry,
                   cursor_position := entry.length }
      else a
    | none =>
      let newIndex := a.command_history.length - 1
      let entry := a.command_history.getD newIndex []
      TerminalApp.update_completions
        { a with history_index := some newIndex, current_input := entry,
                 cursor_position := entry.length }

/-- lib.rs `handle_down_key`. -/
def TerminalApp.handle_down_key (a : TerminalApp) : TerminalApp :=
  match a.history_index with
  | some idx =>
    if idx < a.command_history.length - 1 then
      let entry := a.command_history.getD (idx + 1) []
      TerminalApp.update_completions
        { a with history_index := some (idx + 1), current_input := entry,
                 cursor_position := entry.length }
    else
      TerminalApp.update_completions
        { a with history_index := none, current_input := [], cursor_position := 0 }
  | none => a

/-- Message text of lib.rs line 665. -/
def inputClearedText : Str := "Input cleared. Press Ctrl+C again to exit.".toList

/-- Message text of lib.rs line 675. -/
def exitingText : Str := "Exiting application. Goodbye!".toList

/-- Message text of lib.rs line 681. -/
def pressAgainText : Str := "Press Ctrl+C again to exit.".toList

/-- Module name used by `handle_ctrl_c`'s log lines. -/
def daemonConsoleText : Str := "Daemon Console".toList

/-- The prompt lib.rs passes to `handle_enter_key` (line 295). -/
def promptText : Str := "> ".toList

/-- lib.rs `handle_ctrl_c`.  `now` is the current instant in whole
seconds; `Instant::elapsed().as_secs() < 5` holds exactly when the timer
was armed strictly less than 5 seconds ago, modelled by `now - last < 5`
on the second counts. -/
def TerminalApp.handle_ctrl_c (a : TerminalApp) (now : Nat) :
    TerminalApp × Bool × LogMsg :=
  if a.current_input ≠ [] then
    ({ a with current_input := [], cursor_position := 0, current_completions := [],
              last_ctrl_c := some now },
     false, get_info inputClearedText daemonConsoleText)
  else
    match a.last_ctrl_c with
    | some last_time =>
      if now - last_time < 5 then
        (a, true, get_warn exitingText daemonConsoleText)
      else
        ({ a with last_ctrl_c := some now }, false,
         get_info pressAgainText daemonConsoleText)
    | none =>
      ({ a with last_ctrl_c := some now }, false,
       get_info pressAgainText daemonConsoleText)

/-- lib.rs `handle_ctrl_d`: clears input, cursor and candidates, clears
the input line (resetting the hints flag) and signals exit. -/
def TerminalApp.handle_ctrl_d (a : TerminalApp) : TerminalApp × Bool :=
  ({ a with current_input := [], cursor_position := 0, current_completions := [],
            hints_rendered := false },
   true)

/-- lib.rs `handle_enter_key`: a buffer that is non-empty after trimming
is pushed raw onto history and echoed as prompt + raw buffer; the buffer,
cursor and history index are cleared and the raw text returned.  An
empty-after-trim buffer changes no history and echoes nothing.  Both
branches clear the candidate list.  The returned flag is the (externally
settable) `should_exit` field. -/
def TerminalApp.handle_enter_key (a : TerminalApp) (pfx : Str) :
    TerminalApp × Bool × Option Str :=
  if trim a.current_input ≠ [] then
    let raw := a.current_input
    let a1 := { a with command_history := a.command_history ++ [raw],
                       current_completions := [], hints_rendered := false,
                       out := a.out ++ [pfx ++ raw] }
    let a2 := renderStateEffect
      { a1 with current_input := [], cursor_position := 0, history_index := none }
    (a2, a.should_exit, some raw)
  else
    let a1 := { a with current_completions := [], hints_rendered := false }
    (renderStateEffect a1, a.should_exit, none)

/-- lib.rs `handle_tab_key`: apply the selected candidate when one is
available, otherwise fall back to the tree's best match; either query
mutates the tree's cache (even a failed best-match lookup). -/
def TerminalApp.handle_tab_key (a : TerminalApp) : TerminalApp :=
  if a.current_completions ≠ [] ∧
      a.selected_completion_index < a.current_completions.length then
    let newInput :=
      (a.current_completions.getD a.selected_completion_index
        { full_text := [], completion := [], description := none }).full_text
    TerminalApp.update_completions
      { a with current_input := newInput, cursor_position := newInput.length }
  else
    match a.tab_tree with
    | some tree =>
      let r := tree.get_best_match a.current_input
      match r.1 with
      | some completion =>
        TerminalApp.update_completions
          { a with tab_tree := some r.2, current_input := completion,
                   cursor_position := completion.length }
      | none => { a with tab_tree := some r.2 }
    | none => a

/-- The `is_control_key` computation inside lib.rs `process_event`
(lines 221-225): Ctrl+C or Ctrl+D. -/
def isControlKey (k : KeyEvent) : Bool :=
  match k.code with
  | .Char c =>
    if c = 'c' ∧ k.modifiers = ctrlMod then true
    else if c = 'd' ∧ k.modifiers = ctrlMod then true
    else false
  | _ => false

/-- The key dispatch of lib.rs `process_event` (lines 243-315).  Returns
the new state and the `should_quit` flag. -/
def dispatchKey (a : TerminalApp) (now : Nat) (k : KeyEvent) : TerminalApp × Bool :=
  match k.code with
  | .Char c =>
    if c = 'd' ∧ k.modifiers = ctrlMod then a.handle_ctrl_d
    else if c = 'c' ∧ k.modifiers = ctrlMod then
      let r := a.handle_ctrl_c now
      (r.1.print_log_entry (formatLog r.2.2), r.2.1)
    else
      (renderStateEffect (TerminalApp.update_completions (a.handle_char_input c)), false)
  | .Up => (renderStateEffect a.handle_up_key, false)
  | .Down => (renderStateEffect a.handle_down_key, false)
  | .Left =>
    if k.modifiers = altMod then
      if a.current_completions ≠ [] ∧ 0 < a.selected_completion_index then
        (renderStateEffect
          { a with selected_completion_index := a.selected_completion_index - 1 },
         false)
      else (a, false)
    else
      if 0 < a.cursor_position then
        (renderStateEffect { a with cursor_position := a.cursor_position - 1 }, false)
      else (a, false)
  | .Right =>
    if k.modifiers = altMod then
      if a.current_completions ≠ [] ∧
          a.selected_completion_index < a.current_completions.length - 1 then
        (renderStateEffect
          { a with selected_completion_index := a.selected_completion_index + 1 },
         false)
      else (a, false)
    else
      if a.cursor_position < a.current_input.length then
        (renderStateEffect { a with cursor_position := a.cursor_position + 1 }, false)
      else (a, false)
  | .Tab => (renderStateEffect a.handle_tab_key, false)
  | .Enter =>
    let r := a.handle_enter_key promptText
    (r.1, r.2.1)
  | .Backspace =>
    if 0 < a.cursor_position then
      let a1 := a.remove_char_at (a.cursor_position - 1)
      (renderStateEffect
        (TerminalApp.update_completions
          { a1 with cursor_position := a.cursor_position - 1 }),
       false)
    else (a, false)
  | .OtherKey => (a, false)

/-- The duplicate check of lib.rs `process_event` (lines 216-230): the
incoming key equals the stored last key event in code, modifiers and
kind, and is not one of the exempt control keys. -/
def droppedAsRepeat (a : TerminalApp) (k : KeyEvent) : Bool :=
  (match a.last_key_event with
   | some last =>
     decide (last.code = k.code) && decide (last.modifiers = k.modifiers) &&
       decide (last.kind = k.kind)
   | none => false) && !isControlKey k

/-- lib.rs `process_event` (lines 205-317): release-kind key events are
ignored; a key event equal in code, modifiers and kind to the stored
`last_key_event` is dropped unless it is Ctrl+C or Ctrl+D;
`last_key_event` is recorded only for Ctrl+C and Ctrl+D (lines 232-240);
then the key is dispatched.  Non-key events do nothing. -/
def process_event (a : TerminalApp) (now : Nat) (ev : Event) : TerminalApp × Bool :=
  match ev with
  | .OtherEvent => (a, false)
  | .Key k =>
    if k.kind = .Release then (a, false)
    else if droppedAsRepeat a k then (a, false)
    else
      let a1 := if isControlKey k then { a with last_key_event := some k } else a
      dispatchKey a1 now k

/-- The display-window computation of lib.rs `render_completion_hints`
(lines 548-565): a window of at most 5 entries containing the selected
index, as (start, end) indices into the candidate list. -/
def hintWindow (total_count selected : Nat) : Nat × Nat :=
  let max_display := 5
  if total_count ≤ max_display then (0, total_count)
  else
    let half_window := max_display / 2
    let start :=
      if selected ≤ half_window then 0
      else if total_count - half_window ≤ selected then total_count - max_display
      else selected - half_window
    (start, start + max_display)

/-- The (index, candidate) pairs the hint renderer iterates over:
`.iter().enumerate().skip(start_idx).take(end_idx - start_idx)`
(lib.rs lines 574-580). -/
def displayedHintPairs (cands : List CompletionCandidate) (selected : Nat) :
    List (Nat × CompletionCandidate) :=
  let w := hintWindow cands.length selected
  ((cands.enum).drop w.1).take (w.2 - w.1)

/-- The states reachable from a fresh `TerminalApp` through the public
entry points that mutate editor state: processed events, enabling tab
completion, completion registration, direct submission (`read_input`
calls `handle_enter_key` itself), the interrupt handlers, and log
printing. -/
inductive Reach : TerminalApp → Prop where
  | init : Reach TerminalApp.new
  | step (a : TerminalApp) (now : Nat) (ev : Event) :
      Reach a → Reach (process_event a now ev).1
  | enable (a : TerminalApp) : Reach a → Reach a.enable_tab_completion
  | registerTexts (a : TerminalApp) (context : Str) (texts : List Str) :
      Reach a → Reach (a.register_tab_completions context texts)
  | registerDesc (a : TerminalApp) (context : Str) (items : List (Str × Str)) :
      Reach a → Reach (a.register_tab_completions_with_desc context items)
  | addCompletion (a : TerminalApp) (context : Str) (text : Str) (description : Option Str) :
      Reach a → Reach (a.add_tab_completion context text description)
  | enter (a : TerminalApp) (pfx : Str) :
      Reach a → Reach (a.handle_enter_key pfx).1
  | ctrlC (a : TerminalApp) (now : Nat) :
      Reach a → Reach (a.handle_ctrl_c now).1
  | ctrlD (a : TerminalApp) :
      Reach a → Reach (a.handle_ctrl_d).1
  | logEntry (a : TerminalApp) (line : Str) :
      Reach a → Reach (a.print_log_entry line)

/-! ## lib.rs — the draw-command side of rendering

For the error-handling claim the terminal is modelled as a stream of
queued commands together with an oracle deciding which `execute!` (or
`flush`) call fails.  Commands are recorded as issued even when the call
reports a failure: `execute!` writes its commands to the stream and the
failure surfaces at the write/flush boundary. -/

/-- The crossterm commands the render reconciler issues. -/
inductive TermCmd where
  | hideCursor : TermCmd
  | showCursor : TermCmd
  | moveToColumn : Nat → TermCmd
  | moveDown : Nat → TermCmd
  | moveUp : Nat → TermCmd
  | clearCurrentLine : TermCmd
  | clearUntilNewLine : TermCmd
  | printText : Str → TermCmd
  | setForegroundColor : Bool → TermCmd
  | resetColor : TermCmd
  | savePosition : TermCmd
  | restorePosition : TermCmd
  | flushOut : TermCmd
deriving DecidableEq

/-- The modelled terminal stream: which call (counted from 0) fails, how
many calls have happened, and the issued command trace. -/
structure TermStream where
  failsAt : Nat → Bool
  calls : Nat
  trace : List TermCmd

/-- One `execute!` (or `flush`) call: queue the commands, advance the
call counter, and succeed exactly when the oracle allows this call. -/
def execCmds (cmds : List TermCmd) (t : TermStream) : Bool × TermStream :=
  (!t.failsAt t.calls, { t with calls := t.calls + 1, trace := t.trace ++ cmds })

/-- lib.rs `clear_input_line` (lines 429-448): failures are ignored
(`let _ = execute!`); returns the new `hints_rendered` flag. -/
def clearInputLine (hints_rendered : Bool) (t : TermStream) : Bool × TermStream :=
  if hints_rendered then
    let r := execCmds [.moveToColumn 0, .clearCurrentLine, .moveDown 1,
                       .clearCurrentLine, .moveUp 1, .moveToColumn 0] t
    (false, r.2)
  else
    let r := execCmds [.moveToColumn 0, .clearCurrentLine] t
    (hints_rendered, r.2)

/-- Modelled from the spec: the per-character display column width from
the external unicode-width crate, which is not part of this repository
(§4.3: zero-width characters contribute 0).  No verified claim depends
on the width values, so control characters get width 0 and everything
else width 1. -/
def charWidth (c : Char) : Nat := if c.val < 32 then 0 else 1

/-- lib.rs `calculate_visual_cursor_pos`: 2 columns of prompt plus the
summed display widths of the characters before the cursor. -/
def calculate_visual_cursor_pos (a : TerminalApp) : Nat :=
  2 + ((a.current_input.take a.cursor_position).map charWidth).sum

/-- The bracketed text of one hint item (lib.rs lines 594-600):
`[completion]` or `[completion: description]`. -/
def hintItemText (c : CompletionCandidate) : Str :=
  ['['] ++ c.completion ++
    (match c.description with
     | some d => ": ".toList ++ d
     | none => []) ++ [']']

/-- The truncation indicator of lib.rs lines 606-625, given the hidden
counts on each side. -/
def indicatorText (hidden_left hidden_right : Nat) : Str :=
  if 0 < hidden_left ∧ 0 < hidden_right then
    "  (+".toList ++ (Nat.repr hidden_left).toList ++ "/+".toList ++
      (Nat.repr hidden_right).toList ++ [')']
  else if 0 < hidden_left then
    "  (+".toList ++ (Nat.repr hidden_left).toList ++ "←)".toList
  else
    "  (→+".toList ++ (Nat.repr hidden_right).toList ++ [')']

/-- Rust's `?` operator on a fallible terminal call: continue with the
stream when the call succeeded, otherwise return the failure at once. -/
def seqT {A : Type} (r : Bool × TermStream)
    (k : TermStream → Except Unit A × TermStream) : Except Unit A × TermStream :=
  if r.1 then k r.2 else (.error (), r.2)

/-- Rust's `?` operator on a fallible sub-render: continue with its
result, or propagate its error. -/
def bindE {A B : Type} (r : Except Unit A × TermStream)
    (k : A → TermStream → Except Unit B × TermStream) : Except Unit B × TermStream :=
  match r.1 with
  | .error e => (.error e, r.2)
  | .ok a => k a r.2

/-- The hint-item loop of lib.rs lines 574-603: an item separator for
every item after the first displayed one, the foreground color (cyan for
the selected item), and the bracketed text; each `execute!` can fail and
the first failure aborts the loop. -/
def renderHintItems (selected start : Nat) (pairs : List (Nat × CompletionCandidate))
    (t : TermStream) : Except Unit Unit × TermStream :=
  match pairs with
  | [] => (.ok (), t)
  | p :: rest =>
    seqT (if start < p.1 then execCmds [.printText "  ".toList] t else (true, t)) fun t1 =>
    seqT (execCmds [.setForegroundColor (decide (p.1 = selected))] t1) fun t2 =>
    seqT (execCmds [.printText (hintItemText p.2)] t2) fun t3 =>
    renderHintItems selected start rest t3

/-- lib.rs `render_completion_hints` (lines 544-636): save the cursor,
open the hint line, render the visible window, maybe the truncation
indicator, then reset color, clear to end of line and restore the
cursor; on success `hints_rendered` is set. -/
def renderCompletionHintsT (a : TerminalApp) (t : TermStream) :
    Except Unit TerminalApp × TermStream :=
  let total_count := a.current_completions.length
  let w := hintWindow total_count a.selected_completion_index
  seqT (execCmds [.savePosition, .printText ['\n'], .moveToColumn 0] t) fun t1 =>
  bindE (renderHintItems a.selected_completion_index w.1
      (displayedHintPairs a.current_completions a.selected_completion_index) t1) fun _ t2 =>
  seqT (if 0 < w.1 ∨ w.2 < total_count then
          execCmds [.printText (indicatorText w.1 (total_count - w.2))] t2
        else (true, t2)) fun t3 =>
  seqT (execCmds [.resetColor, .clearUntilNewLine, .restorePosition] t3) fun t4 =>
  (.ok { a with hints_rendered := true }, t4)

/-- lib.rs `render_input_content` (lines 479-498): prompt and buffer,
hints when candidates exist, cursor repositioning and show, flush. -/
def renderInputContentT (a : TerminalApp) (t : TermStream) :
    Except Unit TerminalApp × TermStream :=
  seqT (execCmds [.printText promptText, .printText a.current_input] t) fun t1 =>
  bindE (if a.current_completions ≠ [] then renderCompletionHintsT a t1
         else (.ok a, t1)) fun a1 t2 =>
  seqT (execCmds [.moveToColumn (calculate_visual_cursor_pos a1), .showCursor] t2) fun t3 =>
  seqT (execCmds [.flushOut] t3) fun t4 =>
  (.ok a1, t4)

/-- The closure inside lib.rs `render_input_line` (lines 506-511): hide
the cursor, clear the input line (failures ignored there), render the
content. -/
def renderInputLineBodyT (a : TerminalApp) (t : TermStream) :
    Except Unit TerminalApp × TermStream :=
  seqT (execCmds [.hideCursor] t) fun t1 =>
    let rc := clearInputLine a.hints_rendered t1
    renderInputContentT { a with hints_rendered := rc.1 } rc.2

/-- The recovery wrapper shared by lib.rs `render_input_line` and
`render_input_line_no_clear` (lines 512-515 and 530-533): when the
closure reports an error, a show-cursor command is issued — its own
failure ignored — before the error is returned to the caller. -/
def showOnFailure (body : Except Unit TerminalApp × TermStream) :
    Except Unit TerminalApp × TermStream :=
  match body.1 with
  | .error e => (.error e, (execCmds [.showCursor] body.2).2)
  | .ok a1 => (.ok a1, body.2)

/-- lib.rs `render_input_line` (lines 505-516). -/
def renderInputLineT (a : TerminalApp) (t : TermStream) :
    Except Unit TerminalApp × TermStream :=
  showOnFailure (renderInputLineBodyT a t)

/-- The closure inside lib.rs `render_input_line_no_clear` (lines
524-529): hide the cursor, move to column 0, render the content. -/
def renderInputLineNoClearBodyT (a : TerminalApp) (t : TermStream) :
    Except Unit TerminalApp × TermStream :=
  seqT (execCmds [.hideCursor] t) fun t1 =>
  seqT (execCmds [.moveToColumn 0] t1) fun t2 =>
  renderInputContentT a t2

/-- lib.rs `render_input_line_no_clear` (lines 523-534). -/
def renderInputLineNoClearT (a : TerminalApp) (t : TermStream) :
    Except Unit TerminalApp × TermStream :=
  showOnFailure (renderInputLineNoClearBodyT a t)

/-! ## Theorems -/

/-- C5 claim: lib.rs `handle_ctrl_c` — with a non-empty buffer it clears
buffer, cursor and candidates, arms the confirmation timer to the current
instant and signals not-exiting with an informational message; with an
empty buffer and a timer armed strictly less than 5 seconds ago it
signals exiting with a warning message; otherwise (buffer empty, timer
never armed or expired) it arms or re-arms the timer to now and signals
not-exiting with the press-again informational message. -/
theorem C5_ctrl_c_protocol (a : TerminalApp) (now : Nat) :
    (a.current_input ≠ [] →
      a.handle_ctrl_c now =
        ({ a with current_input := [], cursor_position := 0, current_completions := [],
                  last_ctrl_c := some now },
         false, get_info inputClearedText daemonConsoleText)) ∧
    (a.current_input = [] → ∀ last, a.last_ctrl_c = some last → now - last < 5 →
      a.handle_ctrl_c now = (a, true, get_warn exitingText daemonConsoleText)) ∧
    (a.current_input = [] →
      (∀ last, a.last_ctrl_c = some last → 5 ≤ now - last) →
      a.handle_ctrl_c now =
        ({ a with last_ctrl_c := some now }, false,
         get_info pressAgainText daemonConsoleText)) := by
  refine ⟨fun h => ?_, fun h last hl hlt => ?_, fun h hge => ?_⟩
  · simp [TerminalApp.handle_ctrl_c, h]
  · simp [TerminalApp.handle_ctrl_c, h, hl, hlt]
  · cases hc : a.last_ctrl_c with
    | none => simp [TerminalApp.handle_ctrl_c, h, hc]
    | some last =>
      have h5 := hge last hc
      simp [TerminalApp.handle_ctrl_c, h, hc, Nat.not_lt.mpr h5]

/-- Witness for C5 at a concrete state (fresh application, timer never
armed, pressed at second 3). -/
theorem C5_ctrl_c_protocol_witness :
    TerminalApp.new.handle_ctrl_c 3 =
      ({ TerminalApp.new with last_ctrl_c := some 3 }, false,
       get_info pressAgainText daemonConsoleText) :=
  (C5_ctrl_c_protocol TerminalApp.new 3).2.2 rfl (fun _ h => Option.noConfusion h)

/-- Dropping from an enumeration enumerates the dropped suffix from a
shifted start. -/
theorem drop_enumFrom {α : Type} (l : List α) :
    ∀ n s, (l.enumFrom n).drop s = (l.drop s).enumFrom (n + s) := by
  induction l with
  | nil => intro n s; simp
  | cons a l ih =>
    intro n s
    cases s with
    | zero => simp
    | succ s =>
      have h := ih (n + 1) s
      simp only [List.enumFrom_cons, List.drop_succ_cons, h]
      congr 1
      omega

/-- First components of a truncated enumeration form an interval. -/
theorem map_fst_take_enumFrom {α : Type} (l : List α) :
    ∀ n k, ((l.enumFrom n).take k).map Prod.fst = List.range' n (min k l.length) := by
  induction l with
  | nil => intro n k; simp
  | cons a l ih =>
    intro n k
    cases k with
    | zero => simp
    | succ k =>
      simp only [List.enumFrom_cons, List.take_succ_cons, List.map_cons, ih (n + 1) k,
        List.length_cons, Nat.succ_min_succ, List.range'_succ]

/-- The hint window for more than 5 candidates, written with the spec's
case split (half = 5 / 2 = 2). -/
theorem hintWindow_of_lt (total selected : Nat) (h : 5 < total) :
    hintWindow total selected =
      (if selected ≤ 2 then 0
       else if total - 2 ≤ selected then total - 5
       else selected - 2,
       (if selected ≤ 2 then 0
        else if total - 2 ≤ selected then total - 5
        else selected - 2) + 5) := by
  simp only [hintWindow]
  rw [if_neg (by omega)]

/-- The hint window lies inside the candidate list. -/
theorem hintWindow_bounds (total selected : Nat) :
    (hintWindow total selected).1 ≤ (hintWindow total selected).2 ∧
    (hintWindow total selected).2 ≤ total := by
  simp only [hintWindow]
  repeat' split
  all_goals simp_all
  all_goals omega

/-- The candidate indices the hint renderer displays are exactly the
interval given by `hintWindow`. -/
theorem displayedHintPairs_indices (cands : List CompletionCandidate) (selected : Nat) :
    (displayedHintPairs cands selected).map Prod.fst =
      List.range' (hintWindow cands.length selected).1
        ((hintWindow cands.length selected).2 - (hintWindow cands.length selected).1) := by
  have hb := hintWindow_bounds cands.length selected
  simp only [displayedHintPairs]
  rw [show cands.enum = cands.enumFrom 0 from rfl, drop_enumFrom,
    map_fst_take_enumFrom, List.length_drop, Nat.zero_add]
  congr 1
  omega

/-- C9 claim: for a rendered non-empty candidate list of `n` candidates
with selected index `s`, the displayed window of candidate indices is
`[0, n)` when `n ≤ 5`; otherwise the window has width exactly 5 and
starts at 0 when `s ≤ 2`, at `n - 5` when `s ≥ n - 2`, and at `s - 2`
otherwise; in particular for `n = 12` the selected indices 0, 11 and 5
give the visible index intervals `[0,5)`, `[7,12)` and `[3,8)`. -/
theorem C9_hint_window (cands : List CompletionCandidate) (s : Nat) (_h : cands ≠ []) :
    ((displayedHintPairs cands s).map Prod.fst =
       List.range' (hintWindow cands.length s).1
         ((hintWindow cands.length s).2 - (hintWindow cands.length s).1)) ∧
    (cands.length ≤ 5 → hintWindow cands.length s = (0, cands.length)) ∧
    (5 < cands.length →
       (hintWindow cands.length s).2 - (hintWindow cands.length s).1 = 5 ∧
       (hintWindow cands.length s).1 =
         (if s ≤ 2 then 0
          else if cands.length - 2 ≤ s then cands.length - 5
          else s - 2)) ∧
    (cands.length = 12 →
       (s = 0 → (displayedHintPairs cands s).map Prod.fst = [0, 1, 2, 3, 4]) ∧
       (s = 11 → (displayedHintPairs cands s).map Prod.fst = [7, 8, 9, 10, 11]) ∧
       (s = 5 → (displayedHintPairs cands s).map Prod.fst = [3, 4, 5, 6, 7])) := by
  refine ⟨displayedHintPairs_indices cands s, fun h5 => ?_, fun h5 => ?_, fun h12 => ?_⟩
  · simp [hintWindow, h5]
  · rw [hintWindow_of_lt cands.length s h5]
    constructor
    · simp
    · simp
  · refine ⟨fun hs => ?_, fun hs => ?_, fun hs => ?_⟩
    · rw [displayedHintPairs_indices cands s, h12, hs]
      decide
    · rw [displayedHintPairs_indices cands s, h12, hs]
      decide
    · rw [displayedHintPairs_indices cands s, h12, hs]
      decide

/-- Witness for C9: a concrete list of 12 candidates with selected index
5 displays indices 3 through 7. -/
theorem C9_hint_window_witness :
    (displayedHintPairs
        (List.replicate 12
          { full_text := [], completion := [], description := (none : Option Str) }) 5).map
        Prod.fst = [3, 4, 5, 6, 7] :=
  ((C9_hint_window
      (List.replicate 12 { full_text := [], completion := [], description := none }) 5
      (by decide)).2.2.2 (by decide)).2.2 rfl

/-- C1 claim evaluation (code bug): lib.rs stores `last_key_event` only
for Ctrl+C and Ctrl+D (lines 232-240), which are exactly the keys the
duplicate check exempts, so a key press identical in code, modifiers and
kind to the immediately preceding processed key press is not dropped.
From a fresh application, two identical plain presses of the character
key both act: the buffer ends as two characters and `last_key_event` is
still unset, where the claim requires the second press to be dropped
with the buffer left at one character. -/
theorem C1_debounce_ineffective :
    ((process_event (process_event TerminalApp.new 0
        (Event.Key { code := .Char 'a', modifiers := noMod, kind := .Press })).1 0
        (Event.Key { code := .Char 'a', modifiers := noMod, kind := .Press })).1).current_input
      = ['a', 'a'] ∧
    ((process_event TerminalApp.new 0
        (Event.Key { code := .Char 'a', modifiers := noMod, kind := .Press })).1).last_key_event
      = none := by
  decide

/-- C7 claim: lib.rs `handle_enter_key` — when the whitespace-trimmed
buffer is non-empty, the raw (untrimmed) buffer is appended to history,
the line is echoed as the prompt prefix plus the raw buffer, the buffer,
cursor and history index are cleared, and the raw text is returned; when
the trimmed buffer is empty, history and output are unchanged and no
text is returned; both branches clear the candidate list. -/
theorem C7_enter_submit (a : TerminalApp) (pfx : Str) :
    (trim a.current_input ≠ [] →
       (a.handle_enter_key pfx).1.command_history = a.command_history ++ [a.current_input] ∧
       (a.handle_enter_key pfx).1.out = a.out ++ [pfx ++ a.current_input] ∧
       (a.handle_enter_key pfx).1.current_input = [] ∧
       (a.handle_enter_key pfx).1.cursor_position = 0 ∧
       (a.handle_enter_key pfx).1.history_index = none ∧
       (a.handle_enter_key pfx).2.2 = some a.current_input ∧
       (a.handle_enter_key pfx).1.current_completions = []) ∧
    (trim a.current_input = [] →
       (a.handle_enter_key pfx).1.command_history = a.command_history ∧
       (a.handle_enter_key pfx).1.out = a.out ∧
       (a.handle_enter_key pfx).2.2 = none ∧
       (a.handle_enter_key pfx).1.current_completions = []) := by
  constructor
  · intro h
    simp [TerminalApp.handle_enter_key, h, renderStateEffect]
  · intro h
    simp [TerminalApp.handle_enter_key, h, renderStateEffect]

/-- Witness for C7: submitting the buffer "a" from a fresh application
appends the raw buffer to history and returns it. -/
theorem C7_enter_submit_witness :
    ((TerminalApp.new.handle_char_input 'a').handle_enter_key promptText).1.command_history
      = [['a']] ∧
    ((TerminalApp.new.handle_char_input 'a').handle_enter_key promptText).2.2 = some ['a'] := by
  have h := (C7_enter_submit (TerminalApp.new.handle_char_input 'a') promptText).1 (by decide)
  exact ⟨h.1.trans (by decide), h.2.2.2.2.2.1.trans (by decide)⟩

/-- `update_completions` changes only the tree, the candidate list and
the selected index: buffer, cursor, history and history index are kept. -/
theorem update_completions_editor_fields (a : TerminalApp) :
    (TerminalApp.update_completions a).current_input = a.current_input ∧
    (TerminalApp.update_completions a).cursor_position = a.cursor_position ∧
    (TerminalApp.update_completions a).history_index = a.history_index ∧
    (TerminalApp.update_completions a).command_history = a.command_history := by
  unfold TerminalApp.update_completions
  cases htt : a.tab_tree <;> simp

/-- C6 claim: lib.rs history navigation — Up is a no-op on empty
history; from not-browsing it jumps to the most recent entry; from index
i > 0 it moves to i - 1; at index 0 it is a no-op; every load replaces
the buffer by the selected history entry and places the cursor at buffer
end.  Down is a no-op when not browsing; from index i strictly below the
last index it loads entry i + 1; at the last index it stops browsing,
clearing the buffer, setting the cursor to 0 and the history index to
none. -/
theorem C6_history_navigation (a : TerminalApp) :
    (a.command_history = [] → a.handle_up_key = a) ∧
    (a.command_history ≠ [] → a.history_index = none →
       a.handle_up_key.history_index = some (a.command_history.length - 1) ∧
       a.handle_up_key.current_input =
         a.command_history.getD (a.command_history.length - 1) [] ∧
       a.handle_up_key.cursor_position = a.handle_up_key.current_input.length) ∧
    (∀ i, a.command_history ≠ [] → a.history_index = some i → 0 < i →
       a.handle_up_key.history_index = some (i - 1) ∧
       a.handle_up_key.current_input = a.command_history.getD (i - 1) [] ∧
       a.handle_up_key.cursor_position = a.handle_up_key.current_input.length) ∧
    (a.history_index = some 0 → a.handle_up_key = a) ∧
    (a.history_index = none → a.handle_down_key = a) ∧
    (∀ i, a.history_index = some i → i < a.command_history.length - 1 →
       a.handle_down_key.history_index = some (i + 1) ∧
       a.handle_down_key.current_input = a.command_history.getD (i + 1) [] ∧
       a.handle_down_key.cursor_position = a.handle_down_key.current_input.length) ∧
    (∀ i, a.history_index = some i → ¬ i < a.command_history.length - 1 →
       a.handle_down_key.history_index = none ∧
       a.handle_down_key.current_input = [] ∧
       a.handle_down_key.cursor_position = 0) := by
  refine ⟨fun he => ?_, fun hne hni => ?_, fun i hne hsi hpos => ?_, fun h0 => ?_,
    fun hn => ?_, fun i hsi hlt => ?_, fun i hsi hge => ?_⟩
  · simp [TerminalApp.handle_up_key, he]
  · simp [TerminalApp.handle_up_key, if_neg hne, hni, update_completions_editor_fields]
  · simp [TerminalApp.handle_up_key, if_neg hne, hsi, hpos,
      update_completions_editor_fields]
  · by_cases he : a.command_history = []
    · simp [TerminalApp.handle_up_key, he]
    · simp [TerminalApp.handle_up_key, if_neg he, h0]
  · simp [TerminalApp.handle_down_key, hn]
  · simp [TerminalApp.handle_down_key, hsi, hlt, update_completions_editor_fields]
  · simp [TerminalApp.handle_down_key, hsi, if_neg hge, update_completions_editor_fields]

/-- The second stream only appends to the first one's issued trace. -/
def TraceExtends (t t' : TermStream) : Prop := ∃ l, t'.trace = t.trace ++ l

/-- Trace extension is reflexive. -/
theorem traceExtends_refl (t : TermStream) : TraceExtends t t := ⟨[], by simp⟩

/-- Trace extension is transitive. -/
theorem traceExtends_trans {t1 t2 t3 : TermStream} :
    TraceExtends t1 t2 → TraceExtends t2 t3 → TraceExtends t1 t3 := by
  rintro ⟨l1, h1⟩ ⟨l2, h2⟩
  exact ⟨l1 ++ l2, by rw [h2, h1, List.append_assoc]⟩

/-- A terminal call appends its commands to the issued trace. -/
theorem execCmds_extends (cmds : List TermCmd) (t : TermStream) :
    TraceExtends t (execCmds cmds t).2 := ⟨cmds, rfl⟩

/-- Sequencing with `?` only extends the trace of the first call. -/
theorem seqT_extends {A : Type} (r : Bool × TermStream)
    (k : TermStream → Except Unit A × TermStream)
    (hk : ∀ t0, TraceExtends t0 (k t0).2) : TraceExtends r.2 (seqT r k).2 := by
  unfold seqT
  split
  · exact hk r.2
  · exact traceExtends_refl _

/-- Binding a sub-render with `?` only extends its trace. -/
theorem bindE_extends {A B : Type} (r : Except Unit A × TermStream)
    (k : A → TermStream → Except Unit B × TermStream)
    (hk : ∀ a t0, TraceExtends t0 (k a t0).2) : TraceExtends r.2 (bindE r k).2 := by
  unfold bindE
  split
  · exact traceExtends_refl _
  · exact hk _ _

/-- A conditional terminal call extends the trace. -/
theorem ifExec_extends (c : Prop) [Decidable c] (cmds : List TermCmd) (t : TermStream) :
    TraceExtends t ((if c then execCmds cmds t else (true, t)).2) := by
  split
  · exact execCmds_extends _ _
  · exact traceExtends_refl _

/-- `clear_input_line` extends the trace. -/
theorem clearInputLine_extends (h : Bool) (t : TermStream) :
    TraceExtends t (clearInputLine h t).2 := by
  unfold clearInputLine
  split
  · exact execCmds_extends _ _
  · exact execCmds_extends _ _

/-- The hint-item loop extends the trace. -/
theorem renderHintItems_extends (selected start : Nat)
    (pairs : List (Nat × CompletionCandidate)) :
    ∀ t, TraceExtends t (renderHintItems selected start pairs t).2 := by
  induction pairs with
  | nil => intro t; exact traceExtends_refl t
  | cons p rest ih =>
    intro t
    unfold renderHintItems
    refine traceExtends_trans (ifExec_extends _ _ t) (seqT_extends _ _ ?_)
    intro t1
    refine traceExtends_trans (execCmds_extends _ t1) (seqT_extends _ _ ?_)
    intro t2
    refine traceExtends_trans (execCmds_extends _ t2) (seqT_extends _ _ ?_)
    intro t3
    exact ih t3

/-- `render_completion_hints` extends the trace. -/
theorem renderCompletionHintsT_extends (a : TerminalApp) (t : TermStream) :
    TraceExtends t (renderCompletionHintsT a t).2 := by
  unfold renderCompletionHintsT
  refine traceExtends_trans (execCmds_extends _ t) (seqT_extends _ _ ?_)
  intro t1
  refine traceExtends_trans (renderHintItems_extends _ _ _ t1) (bindE_extends _ _ ?_)
  intro u t2
  refine traceExtends_trans (ifExec_extends _ _ t2) (seqT_extends _ _ ?_)
  intro t3
  refine traceExtends_trans (execCmds_extends _ t3) (seqT_extends _ _ ?_)
  intro t4
  exact traceExtends_refl t4

/-- `render_input_content` extends the trace. -/
theorem renderInputContentT_extends (a : TerminalApp) (t : TermStream) :
    TraceExtends t (renderInputContentT a t).2 := by
  unfold renderInputContentT
  refine traceExtends_trans (execCmds_extends _ t) (seqT_extends _ _ ?_)
  intro t1
  have hh : TraceExtends t1
      ((if a.current_completions ≠ [] then renderCompletionHintsT a t1
        else (.ok a, t1)).2) := by
    split
    · exact renderCompletionHintsT_extends a t1
    · exact traceExtends_refl t1
  refine traceExtends_trans hh (bindE_extends _ _ ?_)
  intro a1 t2
  refine traceExtends_trans (execCmds_extends _ t2) (seqT_extends _ _ ?_)
  intro t3
  refine traceExtends_trans (execCmds_extends _ t3) (seqT_extends _ _ ?_)
  intro t4
  exact traceExtends_refl t4

/-- The closure of `render_input_line` extends the trace. -/
theorem renderInputLineBodyT_extends (a : TerminalApp) (t : TermStream) :
    TraceExtends t (renderInputLineBodyT a t).2 := by
  unfold renderInputLineBodyT
  refine traceExtends_trans (execCmds_extends _ t) (seqT_extends _ _ ?_)
  intro t1
  exact traceExtends_trans (clearInputLine_extends _ t1)
    (renderInputContentT_extends _ _)

/-- The closure of `render_input_line_no_clear` extends the trace. -/
theorem renderInputLineNoClearBodyT_extends (a : TerminalApp) (t : TermStream) :
    TraceExtends t (renderInputLineNoClearBodyT a t).2 := by
  unfold renderInputLineNoClearBodyT
  refine traceExtends_trans (execCmds_extends _ t) (seqT_extends _ _ ?_)
  intro t1
  refine traceExtends_trans (execCmds_extends _ t1) (seqT_extends _ _ ?_)
  intro t2
  exact renderInputContentT_extends a t2

/-- On a failing closure, the recovery wrapper issues a show-cursor
command and surfaces the error. -/
theorem showOnFailure_error (body : Except Unit TerminalApp × TermStream)
    (t : TermStream) (hext : TraceExtends t body.2)
    (herr : (showOnFailure body).1 = .error ()) :
    ∃ l, (showOnFailure body).2.trace = t.trace ++ l ∧ TermCmd.showCursor ∈ l := by
  obtain ⟨lb, hlb⟩ := hext
  unfold showOnFailure at herr ⊢
  cases hb : body.1 with
  | error e =>
    refine ⟨lb ++ [TermCmd.showCursor], ?_, ?_⟩
    · show body.2.trace ++ [TermCmd.showCursor] = t.trace ++ (lb ++ [TermCmd.showCursor])
      rw [hlb, List.append_assoc]
    · simp
  | ok a1 =>
    rw [hb] at herr
    exact absurd herr (by simp)

/-- C10 claim: if any step of the input-line drawing sequence fails (in
`render_input_line` or `render_input_line_no_clear`), a show-cursor
command is still issued to the terminal before the function returns, and
the failure is surfaced to the immediate caller as a recoverable error
value (the `Except` result) rather than aborting. -/
theorem C10_render_failure_shows_cursor (a : TerminalApp) (t : TermStream) :
    ((renderInputLineT a t).1 = .error () →
       ∃ l, (renderInputLineT a t).2.trace = t.trace ++ l ∧ TermCmd.showCursor ∈ l) ∧
    ((renderInputLineNoClearT a t).1 = .error () →
       ∃ l, (renderInputLineNoClearT a t).2.trace = t.trace ++ l ∧
         TermCmd.showCursor ∈ l) := by
  constructor
  · intro herr
    exact showOnFailure_error _ t (renderInputLineBodyT_extends a t) herr
  · intro herr
    exact showOnFailure_error _ t (renderInputLineNoClearBodyT_extends a t) herr

/-- Witness for C10: on a terminal whose every call fails, both draw
entry points report the error and the issued suffix contains the
show-cursor command. -/
theorem C10_render_failure_shows_cursor_witness :
    ∃ l, (renderInputLineT TerminalApp.new
        { failsAt := fun _ => true, calls := 0, trace := [] }).2.trace = [] ++ l ∧
      TermCmd.showCursor ∈ l :=
  (C10_render_failure_shows_cursor TerminalApp.new
      { failsAt := fun _ => true, calls := 0, trace := [] }).1 rfl

/-- Witness for C6: with history consisting of the single entry "x" and
not browsing, Up loads that entry with the cursor at its end. -/
theorem C6_history_navigation_witness :
    ({ TerminalApp.new with command_history := [['x']] } : TerminalApp).handle_up_key.history_index
        = some 0 ∧
    ({ TerminalApp.new with command_history := [['x']] } : TerminalApp).handle_up_key.current_input
        = ['x'] := by
  have h :=
    (C6_history_navigation { TerminalApp.new with command_history := [['x']] }).2.1
      (by decide) rfl
  exact ⟨h.1.trans (by decide), h.2.1.trans (by decide)⟩

/-- The cache of a `TabTree` is consistent: the stored candidate list is
exactly what the uncached algorithm produces for the stored last input
on the current tree contents. -/
def cacheConsistent (tr : TabTree) : Prop :=
  tr.current_candidates = compute_candidates tr.root tr.last_input

/-- C2 claim, amended: a `get_candidates` call returns exactly the
uncached-algorithm result and leaves a consistent cache, provided the
cache was consistent beforehand; a fresh tree is consistent, and queries
never change the registered contents.  (As originally stated the claim
fails: registration calls do not invalidate the cache, see the
counterexample.) -/
theorem C2_cached_query_refines_uncached (tr : TabTree) (input : Str)
    (h : cacheConsistent tr) :
    (tr.get_candidates input).1 = compute_candidates tr.root input ∧
    (tr.get_candidates input).2.root = tr.root ∧
    cacheConsistent (tr.get_candidates input).2 ∧
    cacheConsistent TabTree.new := by
  have hnew : cacheConsistent TabTree.new := by
    show ([] : List CompletionCandidate) = compute_candidates TabTree.new.root []
    rfl
  unfold TabTree.get_candidates
  by_cases he : input = tr.last_input
  · rw [if_pos he]
    refine ⟨?_, rfl, h, hnew⟩
    rw [h, he]
  · rw [if_neg he]
    exact ⟨rfl, rfl, rfl, hnew⟩

/-- Witness for C2 at a concrete tree: a fresh tree is cache-consistent
and querying "a" on it returns the uncached result (the empty list). -/
theorem C2_cached_query_refines_uncached_witness :
    (TabTree.new.get_candidates ['a']).1 = compute_candidates TabTree.new.root ['a'] :=
  (C2_cached_query_refines_uncached TabTree.new ['a'] rfl).1

/-- C2 counterexample: registration does not invalidate the cache.  On a
fresh tree (whose cache holds the empty result for the empty input),
register the text "a" at the root and query the empty string: the cached
fast path returns the stale empty list although the uncached algorithm
produces the registered candidate, so the claim as stated is false. -/
theorem C2_stale_cache_counterexample :
    ((TabTree.new.register_completions [] [['a']]).get_candidates []).1 ≠
      compute_candidates (TabTree.new.register_completions [] [['a']]).root [] := by
  decide

/-- The editor-state invariant: the cursor lies inside the buffer, the
selected completion index is in bounds whenever candidates exist, and
the history browsing index is in bounds. -/
def Inv (a : TerminalApp) : Prop :=
  a.cursor_position ≤ a.current_input.length ∧
  (a.current_completions ≠ [] →
    a.selected_completion_index < a.current_completions.length) ∧
  (∀ i, a.history_index = some i → i < a.command_history.length)

/-- The invariant holds initially. -/
theorem inv_new : Inv TerminalApp.new := by
  refine ⟨Nat.le_refl 0, fun hne => absurd rfl hne, fun i hi => ?_⟩
  exact Option.noConfusion hi

/-- `renderStateEffect` touches only the hints flag. -/
theorem inv_renderStateEffect (a : TerminalApp) (h : Inv a) :
    Inv (renderStateEffect a) := h

/-- `print_log_entry` touches only the hints flag and the output. -/
theorem inv_print_log_entry (a : TerminalApp) (h : Inv a) (line : Str) :
    Inv (a.print_log_entry line) := h

/-- `update_completions` preserves the invariant: the refreshed selected
index is 0. -/
theorem inv_update_completions (a : TerminalApp) (h : Inv a) :
    Inv (TerminalApp.update_completions a) := by
  obtain ⟨h1, h2, h3⟩ := h
  unfold TerminalApp.update_completions
  cases htt : a.tab_tree with
  | none => exact ⟨h1, h2, h3⟩
  | some tree =>
    refine ⟨h1, fun hne => ?_, h3⟩
    exact List.length_pos_of_ne_nil hne

/-- `handle_char_input` preserves the invariant. -/
theorem inv_handle_char_input (a : TerminalApp) (h : Inv a) (c : Char) :
    Inv (a.handle_char_input c) := by
  obtain ⟨h1, h2, h3⟩ := h
  unfold TerminalApp.handle_char_input
  have hle : (if a.current_input.length < a.cursor_position then a.current_input.length
      else a.cursor_position) ≤ a.current_input.length := by
    split <;> omega
  refine ⟨?_, h2, h3⟩
  show (if a.current_input.length < a.cursor_position then a.current_input.length
      else a.cursor_position) + 1 ≤ (a.current_input.insertIdx _ c).length
  rw [List.length_insertIdx _ _ hle]
  omega

/-- The backspace branch of `process_event` preserves the invariant. -/
theorem inv_backspace (a : TerminalApp) (h : Inv a) (hpos : 0 < a.cursor_position) :
    Inv (renderStateEffect (TerminalApp.update_completions
      { a.remove_char_at (a.cursor_position - 1) with
          cursor_position := a.cursor_position - 1 })) := by
  obtain ⟨h1, h2, h3⟩ := h
  apply inv_renderStateEffect
  apply inv_update_completions
  have hin : a.cursor_position - 1 < a.current_input.length := by omega
  unfold TerminalApp.remove_char_at
  rw [if_pos hin]
  refine ⟨?_, h2, h3⟩
  show a.cursor_position - 1 ≤ (a.current_input.eraseIdx (a.cursor_position - 1)).length
  rw [List.length_eraseIdx]
  simp only [hin, if_pos]
  omega

/-- `handle_up_key` preserves the invariant. -/
theorem inv_handle_up_key (a : TerminalApp) (h : Inv a) : Inv a.handle_up_key := by
  obtain ⟨h1, h2, h3⟩ := h
  unfold TerminalApp.handle_up_key
  split
  · exact ⟨h1, h2, h3⟩
  · rename_i hne
    have hlen : 0 < a.command_history.length := List.length_pos_of_ne_nil hne
    split
    · rename_i idx hhi
      split
      · apply inv_update_completions
        refine ⟨Nat.le_refl _, h2, fun i hi => ?_⟩
        have hidx := h3 idx hhi
        cases hi
        show idx - 1 < a.command_history.length
        omega
      · exact ⟨h1, h2, h3⟩
    · apply inv_update_completions
      refine ⟨Nat.le_refl _, h2, fun i hi => ?_⟩
      cases hi
      show a.command_history.length - 1 < a.command_history.length
      omega

/-- `handle_down_key` preserves the invariant. -/
theorem inv_handle_down_key (a : TerminalApp) (h : Inv a) : Inv a.handle_down_key := by
  obtain ⟨h1, h2, h3⟩ := h
  unfold TerminalApp.handle_down_key
  split
  · rename_i idx hhi
    split
    · rename_i hlt
      apply inv_update_completions
      refine ⟨Nat.le_refl _, h2, fun i hi => ?_⟩
      cases hi
      show idx + 1 < a.command_history.length
      omega
    · apply inv_update_completions
      refine ⟨Nat.le_refl 0, h2, fun i hi => ?_⟩
      exact Option.noConfusion hi
  · exact ⟨h1, h2, h3⟩

/-- `handle_enter_key` preserves the invariant. -/
theorem inv_handle_enter_key (a : TerminalApp) (h : Inv a) (pfx : Str) :
    Inv (a.handle_enter_key pfx).1 := by
  obtain ⟨h1, h2, h3⟩ := h
  unfold TerminalApp.handle_enter_key
  split
  · apply inv_renderStateEffect
    exact ⟨Nat.le_refl 0, fun hne => absurd rfl hne, fun i hi => Option.noConfusion hi⟩
  · apply inv_renderStateEffect
    exact ⟨h1, fun hne => absurd rfl hne, h3⟩

/-- `handle_ctrl_c` preserves the invariant. -/
theorem inv_handle_ctrl_c (a : TerminalApp) (h : Inv a) (now : Nat) :
    Inv (a.handle_ctrl_c now).1 := by
  obtain ⟨h1, h2, h3⟩ := h
  unfold TerminalApp.handle_ctrl_c
  split
  · exact ⟨Nat.zero_le _, fun hne => absurd rfl hne, h3⟩
  · split
    · split
      · exact ⟨h1, h2, h3⟩
      · exact ⟨h1, h2, h3⟩
    · exact ⟨h1, h2, h3⟩

/-- `handle_ctrl_d` preserves the invariant. -/
theorem inv_handle_ctrl_d (a : TerminalApp) (h : Inv a) :
    Inv (a.handle_ctrl_d).1 := by
  obtain ⟨h1, h2, h3⟩ := h
  exact ⟨Nat.zero_le _, fun hne => absurd rfl hne, h3⟩

/-- `handle_tab_key` preserves the invariant. -/
theorem inv_handle_tab_key (a : TerminalApp) (h : Inv a) : Inv a.handle_tab_key := by
  obtain ⟨h1, h2, h3⟩ := h
  unfold TerminalApp.handle_tab_key
  split
  · apply inv_update_completions
    exact ⟨Nat.le_refl _, h2, h3⟩
  · split
    · dsimp only
      split
      · apply inv_update_completions
        exact ⟨Nat.le_refl _, h2, h3⟩
      · exact ⟨h1, h2, h3⟩
    · exact ⟨h1, h2, h3⟩

/-- `dispatchKey` preserves the invariant. -/
theorem inv_dispatchKey (a : TerminalApp) (h : Inv a) (now : Nat) (k : KeyEvent) :
    Inv (dispatchKey a now k).1 := by
  obtain ⟨h1, h2, h3⟩ := h
  unfold dispatchKey
  split
  · split
    · exact inv_handle_ctrl_d a ⟨h1, h2, h3⟩
    · split
      · exact inv_print_log_entry _ (inv_handle_ctrl_c a ⟨h1, h2, h3⟩ now) _
      · exact inv_renderStateEffect _
          (inv_update_completions _ (inv_handle_char_input a ⟨h1, h2, h3⟩ _))
  · exact inv_renderStateEffect _ (inv_handle_up_key a ⟨h1, h2, h3⟩)
  · exact inv_renderStateEffect _ (inv_handle_down_key a ⟨h1, h2, h3⟩)
  · split
    · split
      · rename_i hguard
        refine inv_renderStateEffect _ ⟨h1, fun hne => ?_, h3⟩
        have hsel := h2 hguard.1
        show a.selected_completion_index - 1 < a.current_completions.length
        omega
      · exact ⟨h1, h2, h3⟩
    · split
      · refine inv_renderStateEffect _ ⟨?_, h2, h3⟩
        show a.cursor_position - 1 ≤ a.current_input.length
        omega
      · exact ⟨h1, h2, h3⟩
  · split
    · split
      · rename_i hguard
        refine inv_renderStateEffect _ ⟨h1, fun hne => ?_, h3⟩
        have hsel := hguard.2
        show a.selected_completion_index + 1 < a.current_completions.length
        omega
      · exact ⟨h1, h2, h3⟩
    · split
      · rename_i hlt
        refine inv_renderStateEffect _ ⟨?_, h2, h3⟩
        show a.cursor_position + 1 ≤ a.current_input.length
        omega
      · exact ⟨h1, h2, h3⟩
  · exact inv_renderStateEffect _ (inv_handle_tab_key a ⟨h1, h2, h3⟩)
  · exact inv_handle_enter_key a ⟨h1, h2, h3⟩ promptText
  · split
    · rename_i hpos
      exact inv_backspace a ⟨h1, h2, h3⟩ hpos
    · exact ⟨h1, h2, h3⟩
  · exact ⟨h1, h2, h3⟩

/-- `process_event` preserves the invariant. -/
theorem inv_process_event (a : TerminalApp) (h : Inv a) (now : Nat) (ev : Event) :
    Inv (process_event a now ev).1 := by
  unfold process_event
  cases ev with
  | OtherEvent => exact h
  | Key k =>
    split
    · exact h
    · split
      · exact h
      · split
        · exact h
        · dsimp only
          split
          · apply inv_dispatchKey
            exact h
          · apply inv_dispatchKey
            exact h

/-- Every reachable state satisfies the invariant. -/
theorem reach_inv (a : TerminalApp) (h : Reach a) : Inv a := by
  induction h with
  | init => exact inv_new
  | step a now ev _ ih => exact inv_process_event a ih now ev
  | enable a _ ih => exact ih
  | registerTexts a context texts _ ih =>
    obtain ⟨h1, h2, h3⟩ := ih
    unfold TerminalApp.register_tab_completions
    cases htt : a.tab_tree with
    | none => exact ⟨h1, h2, h3⟩
    | some tree => exact ⟨h1, h2, h3⟩
  | registerDesc a context items _ ih =>
    obtain ⟨h1, h2, h3⟩ := ih
    unfold TerminalApp.register_tab_completions_with_desc
    cases htt : a.tab_tree with
    | none => exact ⟨h1, h2, h3⟩
    | some tree => exact ⟨h1, h2, h3⟩
  | addCompletion a context text description _ ih =>
    obtain ⟨h1, h2, h3⟩ := ih
    unfold TerminalApp.add_tab_completion
    cases htt : a.tab_tree with
    | none => exact ⟨h1, h2, h3⟩
    | some tree => exact ⟨h1, h2, h3⟩
  | enter a pfx _ ih => exact inv_handle_enter_key a ih pfx
  | ctrlC a now _ ih => exact inv_handle_ctrl_c a ih now
  | ctrlD a _ ih => exact inv_handle_ctrl_d a ih
  | logEntry a line _ ih => exact inv_print_log_entry a ih line

/-- C8 claim: in every reachable editor state, the cursor position stays
within 0 and the number of characters in the buffer, for any sequence of
insert, delete, cursor-move, history-navigation, tab-completion, submit
and interrupt operations. -/
theorem C8_cursor_in_bounds (a : TerminalApp) (h : Reach a) :
    0 ≤ a.cursor_position ∧ a.cursor_position ≤ a.current_input.length :=
  ⟨Nat.zero_le _, (reach_inv a h).1⟩

/-- Witness for C8: the state reached by typing one character. -/
theorem C8_cursor_in_bounds_witness :
    0 ≤ ((process_event TerminalApp.new 0
        (Event.Key { code := .Char 'x', modifiers := noMod, kind := .Press })).1).cursor_position ∧
    ((process_event TerminalApp.new 0
        (Event.Key { code := .Char 'x', modifiers := noMod, kind := .Press })).1).cursor_position ≤
      ((process_event TerminalApp.new 0
        (Event.Key { code := .Char 'x', modifiers := noMod, kind := .Press })).1).current_input.length :=
  C8_cursor_in_bounds _ (Reach.step TerminalApp.new 0 _ Reach.init)

/-- C3 claim, amended: in every reachable state the selected completion
index is a valid index into the candidate list whenever that list is
non-empty.  (The original claim's second half — the index equals 0
whenever the list is empty — fails: submit and the interrupt handlers
clear the candidate list without resetting the index, see the
counterexample.) -/
theorem C3_selected_index_in_bounds (a : TerminalApp) (h : Reach a) :
    a.current_completions ≠ [] →
      a.selected_completion_index < a.current_completions.length :=
  (reach_inv a h).2.1

/-- The state used by the C3 counterexample: enable tab completion,
register the texts "aa" and "ab" at the root, press the character a
(two candidates, index 0), press Alt+Right (index 1), press Enter
(candidates cleared). -/
def cexC3 : TerminalApp :=
  (process_event (process_event (process_event
      ((TerminalApp.new.enable_tab_completion).register_tab_completions []
        [['a', 'a'], ['a', 'b']])
      0 (Event.Key { code := .Char 'a', modifiers := noMod, kind := .Press })).1
      0 (Event.Key { code := .Right, modifiers := altMod, kind := .Press })).1
      0 (Event.Key { code := .Enter, modifiers := noMod, kind := .Press })).1

/-- C3 counterexample: a reachable state whose candidate list is empty
while the selected index is 1, refuting the claim's requirement that the
index equals 0 whenever the list is empty. -/
theorem C3_cleared_list_keeps_index :
    Reach cexC3 ∧ cexC3.current_completions = [] ∧
      cexC3.selected_completion_index = 1 := by
  refine ⟨?_, by decide, by decide⟩
  exact Reach.step _ 0 _ (Reach.step _ 0 _ (Reach.step _ 0 _
    (Reach.registerTexts _ [] [['a', 'a'], ['a', 'b']]
      (Reach.enable TerminalApp.new Reach.init))))

/-- Witness for C3: the intermediate state of the counterexample
sequence right after the character press has two candidates and selected
index 0 < 2. -/
theorem C3_selected_index_in_bounds_witness :
    ((process_event
        ((TerminalApp.new.enable_tab_completion).register_tab_completions []
          [['a', 'a'], ['a', 'b']])
        0 (Event.Key { code := .Char 'a', modifiers := noMod, kind := .Press })).1).selected_completion_index <
      ((process_event
        ((TerminalApp.new.enable_tab_completion).register_tab_completions []
          [['a', 'a'], ['a', 'b']])
        0 (Event.Key { code := .Char 'a', modifiers := noMod, kind := .Press })).1).current_completions.length :=
  C3_selected_index_in_bounds _
    (Reach.step _ 0 _ (Reach.registerTexts _ [] [['a', 'a'], ['a', 'b']]
      (Reach.enable TerminalApp.new Reach.init)))
    (by decide)

/-- Every node lists itself first in its node enumeration. -/
theorem self_mem_nodesOf (n : TabNode) : n ∈ nodesOf n := by
  cases n with
  | mk t comps children strat => exact List.mem_cons_self _ _

/-- Nodes of the children belong to the parent's node enumeration. -/
theorem mem_nodesOf_of_mem_children (t : Option Str) (comps : List CompletionItem)
    (children : List TabNode) (strat : MatchStrategy) (x : TabNode)
    (hx : x ∈ nodesOfList children) : x ∈ nodesOf (.mk t comps children strat) :=
  List.mem_cons_of_mem _ hx

mutual

/-- The search never decreases the accumulated best trigger length. -/
theorem searchNode_mono (input : Str) (n : TabNode) (best : TabNode × Nat) :
    best.2 ≤ (searchNode input n best).2 := by
  match n with
  | .mk trig comps children strat =>
    rw [searchNode.eq_def]
    have h := searchList_mono input children
    cases trig with
    | none => exact h best
    | some t =>
      by_cases hc : t <+: input ∧ best.2 < t.length
      · simp only [hc, if_true]
        exact le_trans (le_of_lt hc.2)
          (h (TabNode.mk (some t) comps children strat, t.length))
      · simp only [hc, if_false]
        exact h best

/-- List part of `searchNode_mono`. -/
theorem searchList_mono (input : Str) (ns : List TabNode) (best : TabNode × Nat) :
    best.2 ≤ (searchList input ns best).2 := by
  match ns with
  | [] => rw [searchList.eq_def]
  | c :: rest =>
    rw [searchList.eq_def]
    exact le_trans (searchNode_mono input c best) (searchList_mono input rest _)

end

mutual

/-- Soundness of the search: the result is the incoming best, or an
actual node of the subtree whose trigger is a prefix of the input with
the recorded length. -/
theorem searchNode_sound (input : Str) (n : TabNode) (best : TabNode × Nat) :
    searchNode input n best = best ∨
    ((searchNode input n best).1 ∈ nodesOf n ∧
     ∃ t, (searchNode input n best).1.trigger = some t ∧ t <+: input ∧
       t.length = (searchNode input n best).2) := by
  match n with
  | .mk trig comps children strat =>
    rw [searchNode.eq_def]
    dsimp only
    cases trig with
    | none =>
      rcases searchList_sound input children best with h | ⟨hmem, t, ht, hp, hl⟩
      · exact Or.inl h
      · exact Or.inr ⟨mem_nodesOf_of_mem_children _ _ _ _ _ hmem, t, ht, hp, hl⟩
    | some t0 =>
      dsimp only
      by_cases hc : t0 <+: input ∧ best.2 < t0.length
      · rw [if_pos hc]
        rcases searchList_sound input children
            (TabNode.mk (some t0) comps children strat, t0.length) with h | ⟨hmem, t, ht, hp, hl⟩
        · rw [h]
          exact Or.inr ⟨self_mem_nodesOf _, t0, rfl, hc.1, rfl⟩
        · exact Or.inr ⟨mem_nodesOf_of_mem_children _ _ _ _ _ hmem, t, ht, hp, hl⟩
      · rw [if_neg hc]
        rcases searchList_sound input children best with h | ⟨hmem, t, ht, hp, hl⟩
        · exact Or.inl h
        · exact Or.inr ⟨mem_nodesOf_of_mem_children _ _ _ _ _ hmem, t, ht, hp, hl⟩

/-- List part of `searchNode_sound`. -/
theorem searchList_sound (input : Str) (ns : List TabNode) (best : TabNode × Nat) :
    searchList input ns best = best ∨
    ((searchList input ns best).1 ∈ nodesOfList ns ∧
     ∃ t, (searchList input ns best).1.trigger = some t ∧ t <+: input ∧
       t.length = (searchList input ns best).2) := by
  match ns with
  | [] =>
    rw [searchList.eq_def]
    exact Or.inl rfl
  | c :: rest =>
    rw [searchList.eq_def]
    dsimp only
    rcases searchList_sound input rest (searchNode input c best) with h | ⟨hmem, t, ht, hp, hl⟩
    · rw [h]
      rcases searchNode_sound input c best with h2 | ⟨hmem2, t2, ht2, hp2, hl2⟩
      · exact Or.inl h2
      · refine Or.inr ⟨?_, t2, ht2, hp2, hl2⟩
        show _ ∈ nodesOf c ++ nodesOfList rest
        exact List.mem_append_left _ hmem2
    · refine Or.inr ⟨?_, t, ht, hp, hl⟩
      show _ ∈ nodesOf c ++ nodesOfList rest
      exact List.mem_append_right _ hmem

end

mutual

/-- Completeness of the search: no node of the subtree whose trigger is
a prefix of the input beats the final best length. -/
theorem searchNode_complete (input : Str) (n : TabNode) (best : TabNode × Nat)
    (m : TabNode) (hm : m ∈ nodesOf n) (t : Str) (ht : m.trigger = some t)
    (hp : t <+: input) : t.length ≤ (searchNode input n best).2 := by
  match n with
  | .mk trig comps children strat =>
    rw [searchNode.eq_def]
    dsimp only
    have hm2 : m = TabNode.mk trig comps children strat ∨ m ∈ nodesOfList children :=
      List.mem_cons.mp hm
    rcases hm2 with hme | hmc
    · subst hme
      have htr : trig = some t := ht
      subst htr
      dsimp only
      by_cases hlt : best.2 < t.length
      · rw [if_pos ⟨hp, hlt⟩]
        exact searchList_mono input children
          (TabNode.mk (some t) comps children strat, t.length)
      · rw [if_neg (fun hand => hlt hand.2)]
        exact le_trans (Nat.le_of_not_lt hlt) (searchList_mono input children best)
    · exact searchList_complete input children _ m hmc t ht hp

/-- List part of `searchNode_complete`. -/
theorem searchList_complete (input : Str) (ns : List TabNode) (best : TabNode × Nat)
    (m : TabNode) (hm : m ∈ nodesOfList ns) (t : Str) (ht : m.trigger = some t)
    (hp : t <+: input) : t.length ≤ (searchList input ns best).2 := by
  match ns with
  | [] => exact absurd hm (List.not_mem_nil m)
  | c :: rest =>
    rw [searchList.eq_def]
    dsimp only
    have hm2 : m ∈ nodesOf c ∨ m ∈ nodesOfList rest := by
      have happ : m ∈ nodesOf c ++ nodesOfList rest := hm
      exact List.mem_append.mp happ
    rcases hm2 with hmc | hmr
    · exact le_trans (searchNode_complete input c best m hmc t ht hp)
        (searchList_mono input rest _)
    · exact searchList_complete input rest _ m hmr t ht hp

end

/-- The node `find_deepest_match` selects in a tree whose root carries
no trigger: it is a node of the tree, its trigger (when present) is a
literal prefix of the input, and its trigger length is maximal among all
nodes whose trigger is a prefix of the input. -/
theorem find_deepest_match_spec (root : TabNode) (input : Str)
    (hroot : root.trigger = none) :
    find_deepest_match root input ∈ nodesOf root ∧
    (∀ t, (find_deepest_match root input).trigger = some t → t <+: input) ∧
    (∀ m, m ∈ nodesOf root → ∀ t, m.trigger = some t → t <+: input →
      t.length ≤ triggerLen (find_deepest_match root input)) := by
  have hsound := searchNode_sound input root (root, 0)
  have htl : triggerLen (find_deepest_match root input) =
      (searchNode input root (root, 0)).2 := by
    rcases hsound with h | ⟨hmem, t, ht, hp, hl⟩
    · unfold find_deepest_match
      rw [h]
      unfold triggerLen
      rw [hroot]
    · unfold find_deepest_match triggerLen
      rw [ht]
      exact hl
  refine ⟨?_, ?_, ?_⟩
  · rcases hsound with h | ⟨hmem, _⟩
    · unfold find_deepest_match
      rw [h]
      exact self_mem_nodesOf root
    · exact hmem
  · intro t ht
    rcases hsound with h | ⟨hmem, t2, ht2, hp2, hl2⟩
    · unfold find_deepest_match at ht
      rw [h] at ht
      rw [hroot] at ht
      exact absurd ht (by simp)
    · unfold find_deepest_match at ht
      rw [ht2] at ht
      cases ht
      exact hp2
  · intro m hmem t ht hp
    rw [htl]
    exact searchNode_complete input root (root, 0) m hmem t ht hp

/-- With the Prefix strategy on the selected node, the uncached result
is exactly the node's items filtered by the remainder (all items kept
when the remainder is empty), priority-sorted and built into
candidates. -/
theorem compute_candidates_prefix_eq (root : TabNode) (input : Str)
    (hstrat : (find_deepest_match root input).match_strategy = .Prefix) :
    compute_candidates root input =
      (sortByPriority ((find_deepest_match root input).completions.filter
          (fun item =>
            decide (prefixRemainder (find_deepest_match root input) input = []) ||
              decide (prefixRemainder (find_deepest_match root input) input <+: item.text)))).map
        (fun item =>
          { full_text :=
              if (find_deepest_match root input).trigger.getD [] = [] then item.text
              else (find_deepest_match root input).trigger.getD [] ++ [' '] ++ item.text
            completion := item.text
            description := item.description }) := by
  unfold compute_candidates
  dsimp only
  rw [hstrat]
  dsimp only
  by_cases hsuf : prefixRemainder (find_deepest_match root input) input = []
  · rw [if_neg (not_not_intro hsuf)]
    have hall : ∀ item ∈ (find_deepest_match root input).completions,
        (fun item =>
          decide (prefixRemainder (find_deepest_match root input) input = []) ||
            decide (prefixRemainder (find_deepest_match root input) input <+: item.text))
          item = true := by
      intro item _
      simp [hsuf]
    rw [List.filter_eq_self.mpr hall]
  · rw [if_pos hsuf]
    have hcongr : ∀ item ∈ (find_deepest_match root input).completions,
        decide (prefixRemainder (find_deepest_match root input) input <+: item.text) =
          (decide (prefixRemainder (find_deepest_match root input) input = []) ||
            decide (prefixRemainder (find_deepest_match root input) input <+: item.text)) := by
      intro item _
      simp [hsuf]
    rw [List.filter_congr hcongr]

/-- C4 claim, amended: for every input string, the uncached
`get_candidates` algorithm takes the items of the node whose trigger is
the longest literal prefix of the input (the root, with no trigger,
always qualifying as fallback), and when that node uses the Prefix
strategy it keeps exactly the items whose text starts with the
remainder — where for a node with a trigger the remainder is the input
minus the matched trigger then minus leading whitespace, while for the
root the remainder is the unmodified input — keeping all items when the
remainder is empty.  (As originally stated — leading whitespace also
stripped at the root — the claim fails, see the counterexample.) -/
theorem C4_longest_trigger_and_prefix_filter (root : TabNode) (input : Str)
    (hroot : root.trigger = none) :
    find_deepest_match root input ∈ nodesOf root ∧
    (∀ t, (find_deepest_match root input).trigger = some t → t <+: input) ∧
    (∀ m, m ∈ nodesOf root → ∀ t, m.trigger = some t → t <+: input →
      t.length ≤ triggerLen (find_deepest_match root input)) ∧
    ((find_deepest_match root input).match_strategy = .Prefix →
      compute_candidates root input =
        (sortByPriority ((find_deepest_match root input).completions.filter
            (fun item =>
              decide (prefixRemainder (find_deepest_match root input) input = []) ||
                decide (prefixRemainder (find_deepest_match root input) input <+: item.text)))).map
          (fun item =>
            { full_text :=
                if (find_deepest_match root input).trigger.getD [] = [] then item.text
                else (find_deepest_match root input).trigger.getD [] ++ [' '] ++ item.text
              completion := item.text
              description := item.description })) := by
  obtain ⟨hmem, hpre, hmax⟩ := find_deepest_match_spec root input hroot
  exact ⟨hmem, hpre, hmax, fun hstrat => compute_candidates_prefix_eq root input hstrat⟩

/-- The tree root used by the C4 counterexample and witness: the single
item "x" registered at the root with the default Prefix strategy. -/
def cexC4root : TabNode := (TabTree.new.register_completions [] [['x']]).root

/-- Formalisation of the C4 claim's remainder, for the counterexample:
the claim prescribes stripping the matched trigger and any leading
whitespace uniformly, for the root as well. -/
def claimC4Remainder (node : TabNode) (input : Str) : Str :=
  trimStart (match node.trigger with
             | some trigger => stripPrefixOr trigger input
             | none => input)

/-- C4 counterexample: on the input consisting of a space and x, the
selected node is the root with the Prefix strategy and the single item
"x"; the code keeps no item (the unmodified remainder " x" is not a
prefix of "x"), while the claim's whitespace-stripped remainder "x"
keeps the item, so the claim as stated predicts one candidate where the
code produces none. -/
theorem C4_root_whitespace_counterexample :
    (find_deepest_match cexC4root [' ', 'x']).match_strategy = .Prefix ∧
    compute_candidates cexC4root [' ', 'x'] = [] ∧
    (sortByPriority ((find_deepest_match cexC4root [' ', 'x']).completions.filter
        (fun item =>
          decide (claimC4Remainder (find_deepest_match cexC4root [' ', 'x']) [' ', 'x'] = []) ||
            decide (claimC4Remainder (find_deepest_match cexC4root [' ', 'x']) [' ', 'x'] <+:
              item.text)))).map
      (fun item =>
        ({ full_text :=
             if (find_deepest_match cexC4root [' ', 'x']).trigger.getD [] = [] then item.text
             else (find_deepest_match cexC4root [' ', 'x']).trigger.getD [] ++ [' '] ++ item.text
           completion := item.text
           description := item.description } : CompletionCandidate)) =
      [{ full_text := ['x'], completion := ['x'], description := none }] := by
  refine ⟨by decide, by decide, by decide⟩

/-- Witness for C4 at a concrete tree and input: the root of
`cexC4root` carries no trigger, the selected node is in the tree, and
the Prefix filter equation holds and evaluates to the single candidate
"x" for the input "x". -/
theorem C4_longest_trigger_and_prefix_filter_witness :
    find_deepest_match cexC4root ['x'] ∈ nodesOf cexC4root ∧
    compute_candidates cexC4root ['x'] =
      (sortByPriority ((find_deepest_match cexC4root ['x']).completions.filter
          (fun item =>
            decide (prefixRemainder (find_deepest_match cexC4root ['x']) ['x'] = []) ||
              decide (prefixRemainder (find_deepest_match cexC4root ['x']) ['x'] <+:
                item.text)))).map
        (fun item =>
          ({ full_text :=
               if (find_deepest_match cexC4root ['x']).trigger.getD [] = [] then item.text
               else (find_deepest_match cexC4root ['x']).trigger.getD [] ++ [' '] ++ item.text
             completion := item.text
             description := item.description } : CompletionCandidate)) := by
  have h := C4_longest_trigger_and_prefix_filter cexC4root ['x'] (by decide)
  exact ⟨h.1, h.2.2.2 (by decide)⟩

end DCL
